import Mathlib

/-!
Verification development for the transaction builder
(src/pycardano/txbuilder.py).

The data model and the operations of the builder are embedded shallowly:

* a 28/32-byte hash is embedded as a natural number (the lexicographic order
  of its fixed-length hexadecimal rendering coincides with the numeric order,
  which is what the sort key in `build` uses);
* a Python dict is embedded as an association list whose keys are unique in
  every representable value; dict union with addition is embedded as repeated
  key-insertion, which agrees with the Python operation on every representable
  (unique-key) operand;
* functions of the repository that are outside src/ (the Ledger Value
  arithmetic and comparison of pycardano.transaction, the MultiAsset filter,
  and max_tx_fee of pycardano.utils) are modelled from the spec, and each
  such definition is marked in its doc comment;
* the builder methods mutate self in Python; here `build` returns the
  post-call builder state next to the produced transaction body.
-/

namespace PyCardano

/-- An asset bundle: a finite map from asset name to signed quantity,
as an association list (a Python dict; representable values have unique keys). -/
abbrev Asset := List (String × Int)

/-- Multi-asset container: policy id to asset bundle (nested Python dict). -/
abbrev MultiAsset := List (String × Asset)

/-- Total quantity an asset bundle assigns to name n (0 when absent). -/
def qtyA : Asset → String → Int
  | [], _ => 0
  | e :: r, n => (if e.1 = n then e.2 else 0) + qtyA r n

/-- Total quantity a multi-asset container assigns to (policy, name). -/
def qtyMA : MultiAsset → String → String → Int
  | [], _, _ => 0
  | e :: r, p, n => (if e.1 = p then qtyA e.2 n else 0) + qtyMA r p n

/-- Dict insertion with addition: add q at key n, creating the key when absent. -/
def insertAdd : Asset → String → Int → Asset
  | [], n, q => [(n, q)]
  | e :: r, n, q => if e.1 = n then (e.1, e.2 + q) :: r else e :: insertAdd r n q

/-- Modelled from the spec (4.1, pycardano.transaction not in src/):
asset-bundle union with quantity addition; absent entries are treated as zero. -/
def addAsset (a b : Asset) : Asset := b.foldl (fun acc e => insertAdd acc e.1 e.2) a

/-- Insert one policy worth of assets into a multi-asset container. -/
def insertPolicy : MultiAsset → String → Asset → MultiAsset
  | [], p, assets => [(p, addAsset [] assets)]
  | e :: r, p, assets =>
    if e.1 = p then (e.1, addAsset e.2 assets) :: r else e :: insertPolicy r p assets

/-- Modelled from the spec (4.1, pycardano.transaction not in src/):
deep dict union of multi-asset containers with quantity addition. -/
def addMA (a b : MultiAsset) : MultiAsset := b.foldl (fun acc e => insertPolicy acc e.1 e.2) a

/-- Negate every quantity of an asset bundle. -/
def negA (a : Asset) : Asset := a.map (fun e => (e.1, -e.2))

/-- Negate every quantity of a multi-asset container. -/
def negMA (m : MultiAsset) : MultiAsset := m.map (fun e => (e.1, negA e.2))

/-- Modelled from the spec (4.1, pycardano.transaction not in src/):
MultiAsset.filter keeps the entries satisfying the predicate and drops every
policy group left empty. -/
def filterMA (pred : String → String → Int → Bool) : MultiAsset → MultiAsset
  | [] => []
  | e :: r =>
    let fa := e.2.filter (fun x => pred e.1 x.1 x.2)
    if fa.isEmpty then filterMA pred r else (e.1, fa) :: filterMA pred r

/-- A Ledger Value: base-unit amount plus a multi-asset container. -/
structure Value where
  coin : Int
  multiAsset : MultiAsset
deriving DecidableEq

/-- The empty value Value(). -/
def Value.zero : Value := ⟨0, []⟩

/-- Quantity of asset (p, n) held by a value. -/
def Value.qty (v : Value) (p n : String) : Int := qtyMA v.multiAsset p n

/-- Modelled from the spec (4.1): add(a, b) is componentwise with deep union. -/
def addValue (a b : Value) : Value := ⟨a.coin + b.coin, addMA a.multiAsset b.multiAsset⟩

/-- Modelled from the spec (4.1): subtract(a, b) = add(a, negate(b)). -/
def subValue (a b : Value) : Value := addValue a ⟨-b.coin, negMA b.multiAsset⟩

/-- The (policy, name) keys present in a multi-asset container. -/
def keysMA (m : MultiAsset) : List (String × String) :=
  m.flatMap (fun e => e.2.map (fun x => (e.1, x.1)))

/-- Modelled from the spec (3, 4.1, pycardano.transaction not in src/):
compare(a, b) holds only if the base and every asset quantity satisfy the
comparison (quantities at absent keys are zero). -/
def valueLeB (a b : Value) : Bool :=
  decide (a.coin ≤ b.coin) &&
    (keysMA a.multiAsset ++ keysMA b.multiAsset).all
      (fun k => decide (qtyMA a.multiAsset k.1 k.2 ≤ qtyMA b.multiAsset k.1 k.2))

/-- Modelled from the spec (3, 4.1): the test Value() < v used for
"a deficit exists": v is strictly positive, i.e. the zero value is below v
and v is not below the zero value. -/
def zeroLtValueB (v : Value) : Bool := valueLeB Value.zero v && !(valueLeB v Value.zero)

/-- The payment part of an address: a verification-key hash or a script hash. -/
inductive PaymentPart where
  | vkeyHash (h : Nat)
  | scriptHash (h : Nat)
deriving DecidableEq

/-- An address: its text rendering (the chain-context query key str(address))
plus its payment credential. -/
structure Address where
  name : String
  paymentPart : Option PaymentPart
deriving DecidableEq

/-- A transaction input reference: (source transaction id, output index). -/
structure TransactionInput where
  transactionId : Nat
  index : Nat
deriving DecidableEq

/-- A transaction-output amount: a plain integer or a full Value
(Python allows both; _add_change_and_fee appends either form). -/
inductive Amount where
  | coin (n : Int)
  | value (v : Value)
deriving DecidableEq

/-- The value of an amount (an integer amount is a pure base-unit value). -/
def Amount.toValue : Amount → Value
  | .coin n => ⟨n, []⟩
  | .value v => v

/-- A transaction output; the address is None only as an internal placeholder. -/
structure TransactionOutput where
  address : Option Address
  amount : Amount
deriving DecidableEq

/-- A UTxO entry: an input reference paired with the output it created. -/
structure UTxO where
  input : TransactionInput
  output : TransactionOutput
deriving DecidableEq

/-- The transaction body emitted by build(). -/
structure TransactionBody where
  inputs : List TransactionInput
  outputs : List TransactionOutput
  fee : Int
  ttl : Option Int
  validityStart : Option Int
deriving DecidableEq

/-- FAKE_VKEY = VerificationKey.from_primitive(bytes(VERIFICATION_KEY_HASH_SIZE)). -/
def FAKE_VKEY : List Nat := List.replicate 28 0

/-- FAKE_TX_SIGNATURE = bytes(64). -/
def FAKE_TX_SIGNATURE : List Nat := List.replicate 64 0

/-- A verification-key witness (key bytes, signature bytes). -/
structure VerificationKeyWitness where
  vkey : List Nat
  signature : List Nat
deriving DecidableEq

/-- A transaction witness set (only the vkey witnesses matter here). -/
structure TransactionWitnessSet where
  vkeyWitnesses : List VerificationKeyWitness
deriving DecidableEq

/-- A full transaction: body, witness set, validity flag. -/
structure Transaction where
  body : TransactionBody
  witnessSet : TransactionWitnessSet
  valid : Bool
deriving DecidableEq

/-- The chain context. utxos is the UTxO query keyed by address text.
maxTxFee is modelled from the spec: max_tx_fee (pycardano.utils, not in src/)
depends only on the context's protocol parameters, so it is an abstract field.
feeForTx is modelled from the spec (4.3, 6): the size-based fee computation
of a serialized transaction under the protocol fee parameters. -/
structure ChainContext where
  utxos : String → List UTxO
  maxTxFee : Int
  feeForTx : Transaction → Int

/-- A UTxO selector: the select contract of the Selection Strategy (4.2),
returning the chosen entries or a selection error. -/
abbrev UTxOSelector :=
  List UTxO → List TransactionOutput → ChainContext → Except String (List UTxO)

/-- The builder state (TransactionBuilder attributes). -/
structure TransactionBuilder where
  inputs : List UTxO
  inputAddresses : List String
  outputs : List TransactionOutput
  fee : Int
  ttl : Option Int
  validityStart : Option Int
  utxoSelectors : List UTxOSelector

/-- max_tx_fee(context): context-derived maximum transaction fee. -/
def maxTxFee (ctx : ChainContext) : Int := ctx.maxTxFee

/-- Sum of the values of a list of UTxO entries (provided in
_add_change_and_fee, selected_amount in build). -/
def providedValue (inputs : List UTxO) : Value :=
  inputs.foldl (fun acc i => addValue acc i.output.amount.toValue) Value.zero

/-- Sum of the values of a list of outputs starting from Value(fee)
(requested in _add_change_and_fee). -/
def requestedWithFee (outputs : List TransactionOutput) (fee : Int) : Value :=
  outputs.foldl (fun acc o => addValue acc o.amount.toValue) ⟨fee, []⟩

/-- Sum of the values of a list of outputs (requested_amount in build). -/
def outputsValue (outputs : List TransactionOutput) : Value :=
  outputs.foldl (fun acc o => addValue acc o.amount.toValue) Value.zero

/-- The change computed by _add_change_and_fee before filtering:
provided - (Value(fee) + outputs). -/
def rawChange (b : TransactionBuilder) (ctx : ChainContext) : Value :=
  subValue (providedValue b.inputs) (requestedWithFee b.outputs (maxTxFee ctx))

/-- The asset part of the change after the step
"if change.multi_asset: change.multi_asset = change.multi_asset.filter(v > 0)"
of _add_change_and_fee. -/
def filteredChangeMA (b : TransactionBuilder) (ctx : ChainContext) : MultiAsset :=
  if !(rawChange b ctx).multiAsset.isEmpty then
    filterMA (fun _ _ v => decide (0 < v)) (rawChange b ctx).multiAsset
  else (rawChange b ctx).multiAsset

/-- The amount of the appended change output: the filtered change value,
collapsed to its plain coin when no asset is left. -/
def changeAmountOf (b : TransactionBuilder) (ctx : ChainContext) : Amount :=
  if (filteredChangeMA b ctx).isEmpty then Amount.coin (rawChange b ctx).coin
  else Amount.value ⟨(rawChange b ctx).coin, filteredChangeMA b ctx⟩

/-- _add_change_and_fee: overwrite the fee with max_tx_fee(context), compute
change = provided - requested, drop non-positive asset quantities, collapse an
asset-free change to its coin, and append the change output. -/
def addChangeAndFee (b : TransactionBuilder) (changeAddress : Option Address)
    (ctx : ChainContext) : TransactionBuilder :=
  { b with fee := maxTxFee ctx,
           outputs := b.outputs ++ [⟨changeAddress, changeAmountOf b ctx⟩] }

/-- The vkey hash of the owning address of a UTxO, when its payment part is a
verification-key hash (_input_vkey_hashes membership test). -/
def vkeyHashOf (u : UTxO) : Option Nat :=
  match u.output.address with
  | some a =>
    match a.paymentPart with
    | some (.vkeyHash h) => some h
    | _ => none
  | none => none

/-- _input_vkey_hashes: the distinct vkey payment-credential hashes of the
builder inputs (Python collects them in a set; only membership and cardinality
of the result are observable). -/
def inputVkeyHashes (b : TransactionBuilder) : List Nat :=
  (b.inputs.filterMap vkeyHashOf).dedup

/-- _build_fake_vkey_witnesses: one placeholder witness per distinct hash. -/
def buildFakeVkeyWitnesses (b : TransactionBuilder) : List VerificationKeyWitness :=
  (inputVkeyHashes b).map (fun _ => ⟨FAKE_VKEY, FAKE_TX_SIGNATURE⟩)

/-- _build_fake_witness_set. -/
def buildFakeWitnessSet (b : TransactionBuilder) : TransactionWitnessSet :=
  ⟨buildFakeVkeyWitnesses b⟩

/-- _build_tx_body. -/
def buildTxBody (b : TransactionBuilder) : TransactionBody :=
  ⟨b.inputs.map (fun i => i.input), b.outputs, b.fee, b.ttl, b.validityStart⟩

/-- _build_full_fake_tx. -/
def buildFullFakeTx (b : TransactionBuilder) : Transaction :=
  ⟨buildTxBody b, buildFakeWitnessSet b, true⟩

/-- Modelled from the spec (4.3): estimateFee(candidateBody, context) is the
context's size-based fee of the fully-assembled placeholder transaction. -/
def estimateFee (b : TransactionBuilder) (ctx : ChainContext) : Int :=
  ctx.feeForTx (buildFullFakeTx b)

/-- The sort key order of build: ascending (str(transaction_id), index). -/
def utxoSortLe (u v : UTxO) : Bool :=
  decide (u.input.transactionId < v.input.transactionId) ||
    (decide (u.input.transactionId = v.input.transactionId) &&
      decide (u.input.index ≤ v.input.index))

/-- Insert a UTxO into a list, before the first entry it sorts at-or-before.
Stable insertion: an entry with an equal key stays behind the entries already
in the list. -/
def insertUtxo (u : UTxO) : List UTxO → List UTxO
  | [] => [u]
  | v :: r => if utxoSortLe u v then u :: v :: r else v :: insertUtxo u r

/-- The stable sort of build (list.sort with the (str(transaction_id), index)
key): a stable sort under a total preorder is unique, so stable insertion sort
produces exactly the list Python's sort produces. -/
def sortUtxos : List UTxO → List UTxO
  | [] => []
  | u :: r => insertUtxo u (sortUtxos r)

/-- Key membership at (policy, name): p in m and n in m[p]. -/
def hasPN (m : MultiAsset) (p n : String) : Bool :=
  match m.find? (fun e => e.1 == p) with
  | some e => e.2.any (fun x => x.1 == n)
  | none => false

/-- trimmed_selected_amount in build: the selected amount restricted to asset
entries whose keys also appear in the requested amount. -/
def trimmedSelectedAmount (b : TransactionBuilder) : Value :=
  ⟨(providedValue b.inputs).coin,
    filterMA (fun p n _ => hasPN (outputsValue b.outputs).multiAsset p n)
      (providedValue b.inputs).multiAsset⟩

/-- unfulfilled_amount in build: requested minus trimmed selected, with the
coin component clamped at zero. -/
def unfulfilledAmountOf (b : TransactionBuilder) : Value :=
  let d := subValue (outputsValue b.outputs) (trimmedSelectedAmount b)
  ⟨max 0 d.coin, d.multiAsset⟩

/-- The additional UTxO pool of build: every UTxO of every registered input
address, excluding entries already among the explicit inputs. -/
def poolOf (b : TransactionBuilder) (ctx : ChainContext) : List UTxO :=
  b.inputAddresses.flatMap
    (fun a => (ctx.utxos a).filter (fun u => !b.inputs.contains u))

/-- The selector fallback loop of build: try each selector in order; the first
success wins; a failure before the last advances to the next selector; the
last failure aborts with the combined error. An empty list never runs the
loop body (the constructor always installs a non-empty selector list). -/
def trySelectors (ctx : ChainContext) (pool : List UTxO)
    (req : List TransactionOutput) : List UTxOSelector → Except String (List UTxO)
  | [] => .ok []
  | [s] =>
    match s pool req ctx with
    | .ok sel => .ok sel
    | .error _ => .error "All UTxO selectors failed."
  | s :: rest =>
    match s pool req ctx with
    | .ok sel => .ok sel
    | .error _ => trySelectors ctx pool req rest

/-- build(change_address): compute the deficit; when it is strictly positive,
query the pool and run the selector fallback loop; sort the final inputs by
(transaction id, index); overwrite fee and append the change output; emit the
body. Returns the post-call builder state next to the body. -/
def build (b : TransactionBuilder) (changeAddress : Option Address)
    (ctx : ChainContext) : Except String (TransactionBuilder × TransactionBody) :=
  let afterSelection : Except String (List UTxO) :=
    if zeroLtValueB (unfulfilledAmountOf b) then
      (trySelectors ctx (poolOf b ctx)
          [⟨none, Amount.value (unfulfilledAmountOf b)⟩] b.utxoSelectors).map
        (fun sel => b.inputs ++ sel)
    else .ok b.inputs
  afterSelection.map (fun allSelected =>
    let b1 := { b with inputs := sortUtxos allSelected }
    let b2 := addChangeAndFee b1 changeAddress ctx
    (b2, buildTxBody b2))

/-- The change output of a body is asset-clean: if its amount carries an asset
container, the container is non-empty and every quantity is strictly positive;
a collapsed (plain coin) amount carries no container at all. -/
def changeOutputClean (body : TransactionBody) : Bool :=
  match body.outputs.getLast? with
  | some o =>
    match o.amount with
    | .coin _ => true
    | .value v =>
      !v.multiAsset.isEmpty &&
        v.multiAsset.all (fun e => e.2.all (fun x => decide (0 < x.2)))
  | none => false

/-! ### Concrete scenarios used by counterexamples and witnesses -/

/-- A selector that always fails, like a selector whose pool is exhausted. -/
def failSel : UTxOSelector := fun _ _ _ => .error "no selection"

/-- Change address of the C1 scenarios. -/
def c1Addr : Address := ⟨"ch1", some (.vkeyHash 10)⟩

/-- C1 counterexample state: the input holds 100 coin and 5 A; the output
requests 10 coin, 3 A and 7 B. The deficit has asset components -2 (A) and
7 (B), which is not strictly positive, so no selection runs, and the raw
change (70 coin, 2 A, -7 B) loses its B entry to the positivity filter. -/
def c1B : TransactionBuilder :=
  ⟨[⟨⟨1, 0⟩, ⟨some ⟨"in1", some (.vkeyHash 11)⟩, .value ⟨100, [("P", [("A", 5)])]⟩⟩⟩], [],
   [⟨some c1Addr, .value ⟨10, [("P", [("A", 3), ("B", 7)])]⟩⟩], 0, none, none, [failSel]⟩

/-- Context of the C1 scenarios: empty pool, max fee 20. -/
def c1Ctx : ChainContext := ⟨fun _ => [], 20, fun _ => 0⟩

/-- C1 witness state: asset-free, fully funded. -/
def c1wB : TransactionBuilder :=
  ⟨[⟨⟨3, 0⟩, ⟨some ⟨"in1w", some (.vkeyHash 12)⟩, .coin 100⟩⟩], [],
   [⟨some c1Addr, .coin 30⟩], 0, none, none, [failSel]⟩

/-- The result of the C1 witness build. -/
def c1wPair : TransactionBuilder × TransactionBody :=
  (build c1wB (some c1Addr) c1Ctx).toOption.getD (c1wB, buildTxBody c1wB)

/-- Change address of the C2 scenario. -/
def c2Addr : Address := ⟨"ch2", some (.vkeyHash 20)⟩

/-- C2 scenario state: one input of 100 coin, one output of 30 coin. -/
def c2B : TransactionBuilder :=
  ⟨[⟨⟨2, 0⟩, ⟨some ⟨"in2", some (.vkeyHash 21)⟩, .coin 100⟩⟩], [],
   [⟨some c2Addr, .coin 30⟩], 0, none, none, [failSel]⟩

/-- C2 context: max fee 5, while the size-based fee of any transaction is 7. -/
def c2Ctx : ChainContext := ⟨fun _ => [], 5, fun _ => 7⟩

/-- The result of the C2 build. -/
def c2Pair : TransactionBuilder × TransactionBody :=
  (build c2B (some c2Addr) c2Ctx).toOption.getD (c2B, buildTxBody c2B)

/-- The draft of the C2 scenario: the builder with the final selected inputs
and the pre-change outputs, over which the spec says the fee is estimated. -/
def c2Draft : TransactionBuilder := { c2B with inputs := c2Pair.1.inputs }

/-- C3 scenario state (the worked example of spec 8): input 10000000,
output 5000000. -/
def c3B : TransactionBuilder :=
  ⟨[⟨⟨30, 0⟩, ⟨some ⟨"in3", some (.vkeyHash 31)⟩, .coin 10000000⟩⟩], [],
   [⟨some ⟨"o3", some (.vkeyHash 32)⟩, .coin 5000000⟩], 0, none, none, [failSel]⟩

/-- C3 context: max fee 200000. -/
def c3Ctx : ChainContext := ⟨fun _ => [], 200000, fun _ => 0⟩

/-- A UTxO returned by the succeeding selector of the C4 witness. -/
def c4U : UTxO := ⟨⟨40, 0⟩, ⟨some ⟨"p4", some (.vkeyHash 41)⟩, .coin 12⟩⟩

/-- A selector that succeeds with c4U. -/
def c4Ok : UTxOSelector := fun _ _ _ => .ok [c4U]

/-- C4 witness context. -/
def c4Ctx : ChainContext := ⟨fun _ => [], 1, fun _ => 0⟩

/-- C6 scenario: two explicit inputs in descending key order. -/
def c6B : TransactionBuilder :=
  ⟨[⟨⟨9, 1⟩, ⟨some ⟨"a6", some (.vkeyHash 61)⟩, .coin 30⟩⟩,
    ⟨⟨2, 5⟩, ⟨some ⟨"a6", some (.vkeyHash 61)⟩, .coin 40⟩⟩], [],
   [⟨some ⟨"o6", some (.vkeyHash 62)⟩, .coin 10⟩], 0, none, none, [failSel]⟩

/-- C6 context. -/
def c6Ctx : ChainContext := ⟨fun _ => [], 3, fun _ => 0⟩

/-- The result of the C6 build. -/
def c6Pair : TransactionBuilder × TransactionBody :=
  (build c6B none c6Ctx).toOption.getD (c6B, buildTxBody c6B)

/-- Change address of the C7 scenario. -/
def c7Addr : Address := ⟨"ch7", some (.vkeyHash 70)⟩

/-- C7 scenario: the change keeps a positive asset quantity (2 A). -/
def c7B : TransactionBuilder :=
  ⟨[⟨⟨7, 0⟩, ⟨some ⟨"in7", some (.vkeyHash 71)⟩, .value ⟨100, [("P", [("A", 5)])]⟩⟩⟩], [],
   [⟨some c7Addr, .value ⟨10, [("P", [("A", 3)])]⟩⟩], 0, none, none, [failSel]⟩

/-- C7 context. -/
def c7Ctx : ChainContext := ⟨fun _ => [], 20, fun _ => 0⟩

/-- The result of the C7 build. -/
def c7Pair : TransactionBuilder × TransactionBody :=
  (build c7B (some c7Addr) c7Ctx).toOption.getD (c7B, buildTxBody c7B)

/-- C8 witness state: the input covers the output, no deficit. -/
def c8B : TransactionBuilder :=
  ⟨[⟨⟨8, 0⟩, ⟨some ⟨"in8", some (.vkeyHash 81)⟩, .coin 60⟩⟩], ["addr8"],
   [⟨some ⟨"o8", some (.vkeyHash 82)⟩, .coin 25⟩], 0, none, none, []⟩

/-- A UTxO available at the registered address of the C8 witness. -/
def c8Extra : UTxO := ⟨⟨80, 0⟩, ⟨some ⟨"addr8", some (.vkeyHash 83)⟩, .coin 500⟩⟩

/-- C9 scenario: the caller has set fee 999, ttl 77 and validity start 33. -/
def c9B : TransactionBuilder :=
  ⟨[⟨⟨90, 0⟩, ⟨some ⟨"in9", some (.vkeyHash 91)⟩, .coin 50⟩⟩], ["a9src"],
   [⟨some ⟨"o9", some (.vkeyHash 92)⟩, .coin 10⟩], 999, some 77, some 33, [failSel]⟩

/-- C9 context: max fee 4. -/
def c9Ctx : ChainContext := ⟨fun _ => [], 4, fun _ => 0⟩

/-- The result of the C9 build. -/
def c9Pair : TransactionBuilder × TransactionBody :=
  (build c9B none c9Ctx).toOption.getD (c9B, buildTxBody c9B)

/-- The script address of the C10 witness. -/
def c10Script : Address := ⟨"script10", some (.scriptHash 9)⟩

/-- A UTxO owned by a script-credential address. -/
def c10U : UTxO := ⟨⟨5, 0⟩, ⟨some c10Script, .coin 4⟩⟩

/-- A UTxO owned by a vkey-credential address. -/
def c10V : UTxO := ⟨⟨6, 0⟩, ⟨some ⟨"vk10", some (.vkeyHash 3)⟩, .coin 4⟩⟩

/-- C10 witness state: one vkey input and one script input. -/
def c10B : TransactionBuilder := ⟨[c10V, c10U], [], [], 0, none, none, []⟩

/-! ### Quantity observations of the value arithmetic -/

theorem qtyA_insertAdd (a : Asset) (n : String) (q : Int) (m : String) :
    qtyA (insertAdd a n q) m = qtyA a m + (if n = m then q else 0) := by
  induction a with
  | nil => simp [insertAdd, qtyA]
  | cons e r ih =>
    by_cases h : e.1 = n
    · subst h
      simp only [insertAdd, if_pos rfl, qtyA]
      split_ifs <;> omega
    · simp only [insertAdd, if_neg h, qtyA, ih]
      omega

theorem qtyA_addAsset (a b : Asset) (m : String) :
    qtyA (addAsset a b) m = qtyA a m + qtyA b m := by
  induction b generalizing a with
  | nil => simp [addAsset, qtyA]
  | cons e r ih =>
    have hstep : addAsset a (e :: r) = addAsset (insertAdd a e.1 e.2) r := rfl
    rw [hstep, ih, qtyA_insertAdd]
    simp only [qtyA]
    split_ifs <;> omega

theorem qtyMA_insertPolicy (a : MultiAsset) (p : String) (assets : Asset) (pq n : String) :
    qtyMA (insertPolicy a p assets) pq n
      = qtyMA a pq n + (if p = pq then qtyA assets n else 0) := by
  induction a with
  | nil =>
    simp only [insertPolicy, qtyMA, qtyA_addAsset]
    split_ifs <;> simp [qtyA]
  | cons e r ih =>
    by_cases h : e.1 = p
    · subst h
      simp only [insertPolicy, if_pos rfl, qtyMA, qtyA_addAsset]
      split_ifs <;> omega
    · simp only [insertPolicy, if_neg h, qtyMA, ih]
      omega

theorem qtyMA_addMA (a b : MultiAsset) (p n : String) :
    qtyMA (addMA a b) p n = qtyMA a p n + qtyMA b p n := by
  induction b generalizing a with
  | nil => simp [addMA, qtyMA]
  | cons e r ih =>
    have hstep : addMA a (e :: r) = addMA (insertPolicy a e.1 e.2) r := rfl
    rw [hstep, ih, qtyMA_insertPolicy]
    simp only [qtyMA]
    split_ifs <;> omega

theorem qtyA_negA (a : Asset) (n : String) : qtyA (negA a) n = -qtyA a n := by
  induction a with
  | nil => simp [negA, qtyA]
  | cons e r ih =>
    simp only [negA, List.map_cons, qtyA] at *
    split_ifs <;> omega

theorem qtyMA_negMA (m : MultiAsset) (p n : String) : qtyMA (negMA m) p n = -qtyMA m p n := by
  induction m with
  | nil => simp [negMA, qtyMA]
  | cons e r ih =>
    simp only [negMA, List.map_cons, qtyMA, qtyA_negA] at *
    split_ifs <;> omega

theorem qty_addValue (a b : Value) (p n : String) :
    (addValue a b).qty p n = a.qty p n + b.qty p n := by
  simp [addValue, Value.qty, qtyMA_addMA]

theorem qty_subValue (a b : Value) (p n : String) :
    (subValue a b).qty p n = a.qty p n - b.qty p n := by
  simp [subValue, addValue, Value.qty, qtyMA_addMA, qtyMA_negMA]
  omega

theorem coin_subValue (a b : Value) : (subValue a b).coin = a.coin - b.coin := by
  simp [subValue, addValue]
  omega

theorem foldl_addValue_qty {α : Type} (f : α → Value) (l : List α) (init : Value)
    (p n : String) :
    (l.foldl (fun acc x => addValue acc (f x)) init).qty p n
      = init.qty p n + (l.map (fun x => (f x).qty p n)).sum := by
  induction l generalizing init with
  | nil => simp
  | cons x r ih =>
    simp only [List.foldl_cons, List.map_cons, List.sum_cons, ih, qty_addValue]
    omega

theorem foldl_addValue_coin {α : Type} (f : α → Value) (l : List α) (init : Value) :
    (l.foldl (fun acc x => addValue acc (f x)) init).coin
      = init.coin + (l.map (fun x => (f x).coin)).sum := by
  induction l generalizing init with
  | nil => simp
  | cons x r ih =>
    rw [List.foldl_cons, ih]
    simp only [List.map_cons, List.sum_cons, addValue]
    omega

theorem providedValue_qty (l : List UTxO) (p n : String) :
    (providedValue l).qty p n = (l.map (fun i => i.output.amount.toValue.qty p n)).sum := by
  have h := foldl_addValue_qty (fun i : UTxO => i.output.amount.toValue) l Value.zero p n
  simpa [providedValue, Value.zero, Value.qty, qtyMA] using h

theorem providedValue_coin (l : List UTxO) :
    (providedValue l).coin = (l.map (fun i => i.output.amount.toValue.coin)).sum := by
  have h := foldl_addValue_coin (fun i : UTxO => i.output.amount.toValue) l Value.zero
  simpa [providedValue, Value.zero] using h

theorem outputsValue_qty (l : List TransactionOutput) (p n : String) :
    (outputsValue l).qty p n = (l.map (fun o => o.amount.toValue.qty p n)).sum := by
  have h := foldl_addValue_qty (fun o : TransactionOutput => o.amount.toValue) l Value.zero p n
  simpa [outputsValue, Value.zero, Value.qty, qtyMA] using h

theorem outputsValue_coin (l : List TransactionOutput) :
    (outputsValue l).coin = (l.map (fun o => o.amount.toValue.coin)).sum := by
  have h := foldl_addValue_coin (fun o : TransactionOutput => o.amount.toValue) l Value.zero
  simpa [outputsValue, Value.zero] using h

theorem requestedWithFee_qty (l : List TransactionOutput) (fee : Int) (p n : String) :
    (requestedWithFee l fee).qty p n = (outputsValue l).qty p n := by
  have h := foldl_addValue_qty (fun o : TransactionOutput => o.amount.toValue) l ⟨fee, []⟩ p n
  rw [outputsValue_qty]
  simpa [requestedWithFee, Value.qty, qtyMA] using h

theorem requestedWithFee_coin (l : List TransactionOutput) (fee : Int) :
    (requestedWithFee l fee).coin = fee + (outputsValue l).coin := by
  have h := foldl_addValue_coin (fun o : TransactionOutput => o.amount.toValue) l ⟨fee, []⟩
  rw [outputsValue_coin]
  simpa [requestedWithFee] using h

/-! ### Unique dict keys: every value built by the arithmetic has them -/

/-- The keys of an association list are pairwise distinct
(every Python dict satisfies this). -/
def NodupKeys {β : Type} (l : List (String × β)) : Prop := (l.map Prod.fst).Nodup

/-- Both levels of a multi-asset container have unique keys. -/
def WFMA (m : MultiAsset) : Prop := NodupKeys m ∧ ∀ e ∈ m, NodupKeys e.2

theorem mem_keys_insertAdd (a : Asset) (n : String) (q : Int) (x : String) :
    x ∈ (insertAdd a n q).map Prod.fst ↔ x ∈ a.map Prod.fst ∨ x = n := by
  induction a with
  | nil => simp [insertAdd]
  | cons e r ih =>
    by_cases h : e.1 = n <;> simp [insertAdd, h, ih] <;> tauto

theorem nodupKeys_insertAdd (a : Asset) (n : String) (q : Int) (h : NodupKeys a) :
    NodupKeys (insertAdd a n q) := by
  induction a with
  | nil => simp [insertAdd, NodupKeys]
  | cons e r ih =>
    simp only [NodupKeys, List.map_cons, List.nodup_cons] at h
    by_cases hn : e.1 = n
    · simpa [NodupKeys, insertAdd, hn, List.nodup_cons] using h
    · have ht := ih h.2
      simp only [insertAdd, if_neg hn, NodupKeys, List.map_cons, List.nodup_cons]
      refine ⟨?_, ht⟩
      rw [mem_keys_insertAdd]
      rintro (hm | hm)
      · exact h.1 hm
      · exact hn hm

theorem nodupKeys_addAsset (a b : Asset) (h : NodupKeys a) : NodupKeys (addAsset a b) := by
  induction b generalizing a with
  | nil => exact h
  | cons e r ih =>
    have hstep : addAsset a (e :: r) = addAsset (insertAdd a e.1 e.2) r := rfl
    rw [hstep]
    exact ih _ (nodupKeys_insertAdd a e.1 e.2 h)

theorem mem_keys_insertPolicy (m : MultiAsset) (p : String) (assets : Asset) (x : String) :
    x ∈ (insertPolicy m p assets).map Prod.fst ↔ x ∈ m.map Prod.fst ∨ x = p := by
  induction m with
  | nil => simp [insertPolicy]
  | cons e r ih =>
    by_cases h : e.1 = p <;> simp [insertPolicy, h, ih] <;> tauto

theorem wfMA_insertPolicy (m : MultiAsset) (p : String) (assets : Asset) (h : WFMA m) :
    WFMA (insertPolicy m p assets) := by
  induction m with
  | nil =>
    refine ⟨by simp [insertPolicy, NodupKeys], ?_⟩
    intro e he
    simp only [insertPolicy, List.mem_singleton] at he
    subst he
    exact nodupKeys_addAsset [] assets (by simp [NodupKeys])
  | cons e r ih =>
    obtain ⟨hk, hin⟩ := h
    simp only [NodupKeys, List.map_cons, List.nodup_cons] at hk
    by_cases hp : e.1 = p
    · refine ⟨?_, ?_⟩
      · simpa [insertPolicy, hp, NodupKeys, List.nodup_cons] using hk
      · intro x hx
        simp only [insertPolicy, if_pos hp, List.mem_cons] at hx
        rcases hx with hx | hx
        · subst hx
          exact nodupKeys_addAsset _ _ (hin e (by simp))
        · exact hin x (by simp [hx])
    · have hr : WFMA r := ⟨hk.2, fun x hx => hin x (by simp [hx])⟩
      obtain ⟨ihk, ihin⟩ := ih hr
      refine ⟨?_, ?_⟩
      · simp only [insertPolicy, if_neg hp, NodupKeys, List.map_cons, List.nodup_cons]
        refine ⟨?_, ihk⟩
        rw [mem_keys_insertPolicy]
        rintro (hm | hm)
        · exact hk.1 hm
        · exact hp hm
      · intro x hx
        simp only [insertPolicy, if_neg hp, List.mem_cons] at hx
        rcases hx with hx | hx
        · exact hx ▸ hin e (by simp)
        · exact ihin x hx

theorem wfMA_addMA (m b : MultiAsset) (h : WFMA m) : WFMA (addMA m b) := by
  induction b generalizing m with
  | nil => exact h
  | cons e r ih =>
    have hstep : addMA m (e :: r) = addMA (insertPolicy m e.1 e.2) r := rfl
    rw [hstep]
    exact ih _ (wfMA_insertPolicy m e.1 e.2 h)

theorem wfMA_negMA (m : MultiAsset) (h : WFMA m) : WFMA (negMA m) := by
  obtain ⟨hk, hin⟩ := h
  constructor
  · simpa [negMA, NodupKeys, List.map_map, Function.comp] using hk
  · intro e he
    simp only [negMA, List.mem_map] at he
    obtain ⟨x, hx, hxe⟩ := he
    subst hxe
    simpa [negA, NodupKeys, List.map_map, Function.comp] using hin x hx

theorem wfMA_foldl_addValue {α : Type} (f : α → Value) (l : List α) (init : Value)
    (h : WFMA init.multiAsset) :
    WFMA (l.foldl (fun acc x => addValue acc (f x)) init).multiAsset := by
  induction l generalizing init with
  | nil => exact h
  | cons x r ih =>
    rw [List.foldl_cons]
    exact ih _ (wfMA_addMA _ _ h)

theorem wfMA_zero : WFMA Value.zero.multiAsset := by
  constructor <;> simp [Value.zero, NodupKeys]

theorem wfMA_providedValue (l : List UTxO) : WFMA (providedValue l).multiAsset :=
  wfMA_foldl_addValue _ l Value.zero wfMA_zero

theorem wfMA_rawChange (b : TransactionBuilder) (ctx : ChainContext) :
    WFMA (rawChange b ctx).multiAsset :=
  wfMA_addMA _ _ (wfMA_providedValue b.inputs)

/-! ### The positive-quantity filter, observed through quantities -/

theorem qtyA_eq_zero_of_not_mem (a : Asset) (n : String) (h : n ∉ a.map Prod.fst) :
    qtyA a n = 0 := by
  induction a with
  | nil => simp [qtyA]
  | cons e r ih =>
    simp only [List.map_cons, List.mem_cons] at h
    push_neg at h
    have hne : ¬e.1 = n := fun he => h.1 he.symm
    simp only [qtyA, if_neg hne, ih h.2]
    omega

theorem qtyMA_eq_zero_of_not_mem (m : MultiAsset) (p n : String)
    (h : p ∉ m.map Prod.fst) : qtyMA m p n = 0 := by
  induction m with
  | nil => simp [qtyMA]
  | cons e r ih =>
    simp only [List.map_cons, List.mem_cons] at h
    push_neg at h
    have hne : ¬e.1 = p := fun he => h.1 he.symm
    simp only [qtyMA, if_neg hne, ih h.2]
    omega

theorem qtyA_filter_pos (a : Asset) (h : NodupKeys a) (n : String) :
    qtyA (a.filter (fun x => decide (0 < x.2))) n = max (qtyA a n) 0 := by
  induction a with
  | nil => simp [qtyA]
  | cons e r ih =>
    simp only [NodupKeys, List.map_cons, List.nodup_cons] at h
    have hr := ih h.2
    rw [List.filter_cons]
    by_cases hn : e.1 = n
    · have hrn : qtyA r n = 0 := qtyA_eq_zero_of_not_mem r n (hn ▸ h.1)
      have hfn : qtyA (r.filter (fun x => decide (0 < x.2))) n = 0 := by
        apply qtyA_eq_zero_of_not_mem
        intro hm
        exact (hn ▸ h.1) (((List.filter_sublist r).map Prod.fst).subset hm)
      by_cases hq : (0 : Int) < e.2
      · rw [if_pos (by simpa using hq)]
        simp only [qtyA, if_pos hn, hfn, hrn]
        omega
      · rw [if_neg (by simpa using hq)]
        simp only [qtyA, if_pos hn, hfn, hrn]
        omega
    · by_cases hq : (0 : Int) < e.2
      · rw [if_pos (by simpa using hq)]
        simp only [qtyA, if_neg hn, hr]
        omega
      · rw [if_neg (by simpa using hq)]
        simp only [qtyA, if_neg hn, hr]
        omega

theorem keys_filterMA_sublist (pred : String → String → Int → Bool) (m : MultiAsset) :
    ((filterMA pred m).map Prod.fst).Sublist (m.map Prod.fst) := by
  induction m with
  | nil => simp [filterMA]
  | cons e r ih =>
    simp only [filterMA]
    split
    · exact ih.trans (by simp)
    · simpa using ih.cons₂ e.1

theorem qtyMA_filter_pos (m : MultiAsset) (h : WFMA m) (p n : String) :
    qtyMA (filterMA (fun _ _ v => decide (0 < v)) m) p n = max (qtyMA m p n) 0 := by
  induction m with
  | nil => simp [filterMA, qtyMA]
  | cons e r ih =>
    obtain ⟨hk, hin⟩ := h
    simp only [NodupKeys, List.map_cons, List.nodup_cons] at hk
    have hr : WFMA r := ⟨hk.2, fun x hx => hin x (by simp [hx])⟩
    have hinner : qtyA (e.2.filter (fun x => decide (0 < x.2))) n = max (qtyA e.2 n) 0 :=
      qtyA_filter_pos e.2 (hin e (by simp)) n
    by_cases hp : e.1 = p
    · have hrn : qtyMA r p n = 0 := qtyMA_eq_zero_of_not_mem r p n (hp ▸ hk.1)
      have hfn : qtyMA (filterMA (fun _ _ v => decide (0 < v)) r) p n = 0 := by
        apply qtyMA_eq_zero_of_not_mem
        intro hm
        exact (hp ▸ hk.1) ((keys_filterMA_sublist _ r).mem hm)
      simp only [filterMA]
      split
      · next hemp =>
        have : qtyA (e.2.filter (fun x => decide (0 < x.2))) n = 0 := by
          rcases List.isEmpty_iff.mp hemp with hnil
          simp [hnil, qtyA]
        rw [hfn] at *
        simp only [qtyMA, if_pos hp, hrn]
        omega
      · simp only [qtyMA, if_pos hp, hfn, hrn, hinner]
        omega
    · have hrest := ih hr
      simp only [filterMA]
      split
      · simpa only [qtyMA, if_neg hp, zero_add] using hrest
      · simp only [qtyMA, if_neg hp, hrest]
        omega

/-! ### Sorting and the shape of a successful build -/

/-- The ascending key order on input references: (transaction id, index). -/
def txInLe (i j : TransactionInput) : Prop :=
  i.transactionId < j.transactionId ∨
    (i.transactionId = j.transactionId ∧ i.index ≤ j.index)

theorem utxoSortLe_total (u v : UTxO) : utxoSortLe u v = true ∨ utxoSortLe v u = true := by
  simp only [utxoSortLe, Bool.or_eq_true, Bool.and_eq_true, decide_eq_true_eq]
  omega

theorem utxoSortLe_trans (a b c : UTxO) (hab : utxoSortLe a b = true)
    (hbc : utxoSortLe b c = true) : utxoSortLe a c = true := by
  simp only [utxoSortLe, Bool.or_eq_true, Bool.and_eq_true, decide_eq_true_eq] at *
  omega

theorem mem_insertUtxo (u : UTxO) (l : List UTxO) (x : UTxO) :
    x ∈ insertUtxo u l ↔ x = u ∨ x ∈ l := by
  induction l with
  | nil => simp [insertUtxo]
  | cons v r ih =>
    by_cases h : utxoSortLe u v = true
    · simp only [insertUtxo, if_pos h, List.mem_cons]
    · simp only [insertUtxo, if_neg h, List.mem_cons, ih]
      tauto

theorem pairwise_insertUtxo (u : UTxO) (l : List UTxO)
    (h : List.Pairwise (fun a b => utxoSortLe a b = true) l) :
    List.Pairwise (fun a b => utxoSortLe a b = true) (insertUtxo u l) := by
  induction l with
  | nil => simp [insertUtxo]
  | cons v r ih =>
    rcases h with _ | ⟨hv, hr⟩
    by_cases hle : utxoSortLe u v = true
    · simp only [insertUtxo, if_pos hle]
      refine List.Pairwise.cons ?_ (List.Pairwise.cons hv hr)
      intro x hx
      rcases List.mem_cons.mp hx with hx | hx
      · exact hx ▸ hle
      · exact utxoSortLe_trans u v x hle (hv x hx)
    · have hvu : utxoSortLe v u = true := (utxoSortLe_total u v).resolve_left hle
      simp only [insertUtxo, if_neg hle]
      refine List.Pairwise.cons ?_ (ih hr)
      intro x hx
      rcases (mem_insertUtxo u r x).mp hx with hx | hx
      · exact hx ▸ hvu
      · exact hv x hx

theorem pairwise_sortUtxos (l : List UTxO) :
    List.Pairwise (fun a b => utxoSortLe a b = true) (sortUtxos l) := by
  induction l with
  | nil => simp [sortUtxos]
  | cons u r ih => exact pairwise_insertUtxo u (sortUtxos r) ih

theorem perm_insertUtxo (u : UTxO) (l : List UTxO) : (insertUtxo u l).Perm (u :: l) := by
  induction l with
  | nil => simp [insertUtxo]
  | cons v r ih =>
    by_cases h : utxoSortLe u v = true
    · simp [insertUtxo, h]
    · simp only [insertUtxo, if_neg h]
      exact (ih.cons v).trans (List.Perm.swap u v r)

theorem perm_sortUtxos (l : List UTxO) : (sortUtxos l).Perm l := by
  induction l with
  | nil => simp [sortUtxos]
  | cons u r ih => exact (perm_insertUtxo u (sortUtxos r)).trans (ih.cons u)

/-- Inversion of a successful build: the resulting builder is the original
with its inputs replaced by the sorted selected list and the change-and-fee
step applied; the body is built from that state. -/
theorem build_ok {b : TransactionBuilder} {ca : Option Address} {ctx : ChainContext}
    {bq : TransactionBuilder} {body : TransactionBody}
    (h : build b ca ctx = .ok (bq, body)) :
    ∃ allSelected : List UTxO,
      bq = addChangeAndFee { b with inputs := sortUtxos allSelected } ca ctx ∧
      body = buildTxBody bq := by
  unfold build at h
  by_cases hz : zeroLtValueB (unfulfilledAmountOf b) = true
  · rw [if_pos hz] at h
    cases ht : trySelectors ctx (poolOf b ctx)
        [⟨none, Amount.value (unfulfilledAmountOf b)⟩] b.utxoSelectors with
    | error e => rw [ht] at h; simp [Except.map] at h
    | ok sel =>
      rw [ht] at h
      simp only [Except.map, Except.ok.injEq, Prod.mk.injEq] at h
      obtain ⟨h1, h2⟩ := h
      subst h1
      subst h2
      exact ⟨b.inputs ++ sel, rfl, rfl⟩
  · rw [if_neg hz] at h
    simp only [Except.map, Except.ok.injEq, Prod.mk.injEq] at h
    obtain ⟨h1, h2⟩ := h
    subst h1
    subst h2
    exact ⟨b.inputs, rfl, rfl⟩

/-! ### The change output, observed -/

theorem changeAmount_coin (b : TransactionBuilder) (ctx : ChainContext) :
    (changeAmountOf b ctx).toValue.coin = (rawChange b ctx).coin := by
  unfold changeAmountOf
  split <;> rfl

theorem changeAmount_qty (b : TransactionBuilder) (ctx : ChainContext) (p n : String) :
    (changeAmountOf b ctx).toValue.qty p n = max ((rawChange b ctx).qty p n) 0 := by
  by_cases hemp : (rawChange b ctx).multiAsset.isEmpty
  · have hnil : (rawChange b ctx).multiAsset = [] := List.isEmpty_iff.mp hemp
    have hfe : filteredChangeMA b ctx = [] := by
      unfold filteredChangeMA
      rw [hnil]
      simp [filterMA]
    unfold changeAmountOf
    rw [hfe]
    simp [Amount.toValue, Value.qty, qtyMA, hnil]
  · have hfe : filteredChangeMA b ctx
        = filterMA (fun _ _ v => decide (0 < v)) (rawChange b ctx).multiAsset := by
      unfold filteredChangeMA
      rw [if_pos (show (!(rawChange b ctx).multiAsset.isEmpty) = true by simp [hemp])]
    have hchar := qtyMA_filter_pos (rawChange b ctx).multiAsset (wfMA_rawChange b ctx) p n
    unfold changeAmountOf
    rw [hfe]
    by_cases hf : (filterMA (fun _ _ v => decide (0 < v)) (rawChange b ctx).multiAsset).isEmpty
    · rw [if_pos hf]
      have h0 : qtyMA (filterMA (fun _ _ v => decide (0 < v))
          (rawChange b ctx).multiAsset) p n = 0 := by
        rw [List.isEmpty_iff.mp hf]
        rfl
      rw [h0] at hchar
      simp only [Amount.toValue, Value.qty, qtyMA]
      omega
    · rw [if_neg hf]
      simpa [Amount.toValue, Value.qty] using hchar

theorem rawChange_coin (b : TransactionBuilder) (ctx : ChainContext) :
    (rawChange b ctx).coin
      = (providedValue b.inputs).coin - maxTxFee ctx - (outputsValue b.outputs).coin := by
  unfold rawChange
  rw [coin_subValue, requestedWithFee_coin]
  omega

theorem rawChange_qty (b : TransactionBuilder) (ctx : ChainContext) (p n : String) :
    (rawChange b ctx).qty p n
      = (providedValue b.inputs).qty p n - (outputsValue b.outputs).qty p n := by
  unfold rawChange
  rw [qty_subValue, requestedWithFee_qty]

/-- Every asset entry surviving the positivity filter is strictly positive. -/
theorem filterMA_pos_all (m : MultiAsset) :
    ∀ e ∈ filterMA (fun _ _ v => decide (0 < v)) m, ∀ x ∈ e.2, (0 : Int) < x.2 := by
  induction m with
  | nil => simp [filterMA]
  | cons e r ih =>
    simp only [filterMA]
    split
    · exact ih
    · intro f hf
      rcases List.mem_cons.mp hf with hf | hf
      · subst hf
        intro x hx
        simpa using (List.mem_filter.mp hx).2
      · exact ih f hf

/-! ### The selector loop, characterised -/

theorem trySelectors_ok_head (ctx : ChainContext) (pool : List UTxO)
    (req : List TransactionOutput) (s : UTxOSelector) (rest : List UTxOSelector)
    (sel : List UTxO) (h : s pool req ctx = .ok sel) :
    trySelectors ctx pool req (s :: rest) = .ok sel := by
  cases rest <;> simp [trySelectors, h]

theorem trySelectors_error_head (ctx : ChainContext) (pool : List UTxO)
    (req : List TransactionOutput) (s : UTxOSelector) (rest : List UTxOSelector)
    (e : String) (hne : rest ≠ []) (h : s pool req ctx = .error e) :
    trySelectors ctx pool req (s :: rest) = trySelectors ctx pool req rest := by
  cases rest with
  | nil => exact absurd rfl hne
  | cons r rs => simp [trySelectors, h]

theorem trySelectors_all_fail (ctx : ChainContext) (pool : List UTxO)
    (req : List TransactionOutput) (sels : List UTxOSelector) (hne : sels ≠ [])
    (hall : ∀ s ∈ sels, ∃ e, s pool req ctx = .error e) :
    trySelectors ctx pool req sels = .error "All UTxO selectors failed." := by
  induction sels with
  | nil => exact absurd rfl hne
  | cons s rest ih =>
    obtain ⟨e, he⟩ := hall s (by simp)
    cases rest with
    | nil => simp [trySelectors, he]
    | cons r rs =>
      rw [trySelectors_error_head ctx pool req s (r :: rs) e (by simp) he]
      exact ih (by simp) (fun x hx => hall x (by simp [hx]))

theorem build_all_fail (ctx : ChainContext) (b : TransactionBuilder)
    (ca : Option Address) (hz : zeroLtValueB (unfulfilledAmountOf b) = true)
    (hne : b.utxoSelectors ≠ [])
    (hall : ∀ s ∈ b.utxoSelectors, ∃ e,
      s (poolOf b ctx) [⟨none, Amount.value (unfulfilledAmountOf b)⟩] ctx = .error e) :
    build b ca ctx = .error "All UTxO selectors failed." := by
  unfold build
  rw [if_pos hz, trySelectors_all_fail ctx (poolOf b ctx)
    [⟨none, Amount.value (unfulfilledAmountOf b)⟩] b.utxoSelectors hne hall]
  rfl

theorem build_selection_ok (ctx : ChainContext) (b : TransactionBuilder)
    (ca : Option Address) (sel : List UTxO)
    (hz : zeroLtValueB (unfulfilledAmountOf b) = true)
    (htr : trySelectors ctx (poolOf b ctx)
      [⟨none, Amount.value (unfulfilledAmountOf b)⟩] b.utxoSelectors = .ok sel) :
    ∃ bq body, build b ca ctx = .ok (bq, body) ∧
      bq.inputs = sortUtxos (b.inputs ++ sel) := by
  unfold build
  rw [if_pos hz, htr]
  exact ⟨_, _, rfl, rfl⟩

/-- The sort key order transported to the input references. -/
theorem txInLe_of_utxoSortLe (a b : UTxO) (h : utxoSortLe a b = true) :
    txInLe a.input b.input := by
  simp only [utxoSortLe, Bool.or_eq_true, Bool.and_eq_true, decide_eq_true_eq] at h
  unfold txInLe
  omega

theorem outputsValue_coin_append (l : List TransactionOutput) (o : TransactionOutput) :
    (outputsValue (l ++ [o])).coin = (outputsValue l).coin + o.amount.toValue.coin := by
  rw [outputsValue_coin, outputsValue_coin, List.map_append, List.sum_append]
  simp

theorem outputsValue_qty_append (l : List TransactionOutput) (o : TransactionOutput)
    (p n : String) :
    (outputsValue (l ++ [o])).qty p n
      = (outputsValue l).qty p n + o.amount.toValue.qty p n := by
  rw [outputsValue_qty, outputsValue_qty, List.map_append, List.sum_append]
  simp

/-- The positivity constraint of the change amount, phrased on the match used
by changeOutputClean. -/
theorem changeAmount_clean (b : TransactionBuilder) (ctx : ChainContext) :
    (match changeAmountOf b ctx with
      | .coin _ => true
      | .value v =>
        !v.multiAsset.isEmpty &&
          v.multiAsset.all (fun e => e.2.all (fun x => decide (0 < x.2)))) = true := by
  unfold changeAmountOf
  by_cases hf : (filteredChangeMA b ctx).isEmpty
  · rw [if_pos hf]
  · rw [if_neg hf]
    simp only [Bool.and_eq_true, List.all_eq_true]
    refine ⟨by simpa using hf, ?_⟩
    intro e he x hx
    by_cases hemp : (rawChange b ctx).multiAsset.isEmpty
    · exfalso
      apply hf
      unfold filteredChangeMA
      rw [List.isEmpty_iff.mp hemp]
      simp [filterMA]
    · have hfe : filteredChangeMA b ctx
          = filterMA (fun _ _ v => decide (0 < v)) (rawChange b ctx).multiAsset := by
        unfold filteredChangeMA
        rw [if_pos (show (!(rawChange b ctx).multiAsset.isEmpty) = true by simp [hemp])]
      rw [hfe] at he
      simpa using filterMA_pos_all (rawChange b ctx).multiAsset e he x hx

/-! ### The claims -/

/-- C1 counterexample: at the concrete state c1B a build(changeAddress) call
succeeds, yet the emitted body does not satisfy the balance law in asset
(P, B): the final inputs hold 0 B while the final outputs hold 7 B (the fee
carries no asset part), because the raw change carried B = -7 and the v > 0
filter silently dropped it. -/
theorem build_balance_counterexample :
    (build c1B (some c1Addr) c1Ctx).isOk = true ∧
    (build c1B (some c1Addr) c1Ctx).toOption.map
        (fun r => decide ((providedValue r.1.inputs).qty "P" "B"
          = (outputsValue r.2.outputs).qty "P" "B"))
      = some false := by
  constructor
  · decide
  · decide

/-- C1 (amended): for every successful build(changeAddress), the base units
balance exactly: sum of final input coins = sum of final output coins + fee;
and if every asset quantity of the pre-filter change is non-negative, every
asset quantity balances exactly as well. (A strictly negative pre-filter
change quantity is dropped by the positivity filter and that asset does not
balance; see the counterexample.) -/
theorem build_balance (b : TransactionBuilder) (a : Address) (ctx : ChainContext)
    (bq : TransactionBuilder) (body : TransactionBody)
    (h : build b (some a) ctx = .ok (bq, body)) :
    (providedValue bq.inputs).coin = (outputsValue body.outputs).coin + body.fee ∧
    ((∀ p n : String, 0 ≤ (rawChange { b with inputs := bq.inputs } ctx).qty p n) →
      ∀ p n : String,
        (providedValue bq.inputs).qty p n = (outputsValue body.outputs).qty p n) := by
  obtain ⟨sel, h1, h2⟩ := build_ok h
  subst h1
  subst h2
  constructor
  · show (providedValue (sortUtxos sel)).coin
      = (outputsValue (b.outputs ++
          [⟨some a, changeAmountOf { b with inputs := sortUtxos sel } ctx⟩])).coin
        + maxTxFee ctx
    rw [outputsValue_coin_append]
    dsimp only
    rw [changeAmount_coin, rawChange_coin]
    dsimp only
    omega
  · intro hpos p n
    have hp : 0 ≤ (rawChange { b with inputs := sortUtxos sel } ctx).qty p n := hpos p n
    rw [rawChange_qty] at hp
    dsimp only at hp
    show (providedValue (sortUtxos sel)).qty p n
      = (outputsValue (b.outputs ++
          [⟨some a, changeAmountOf { b with inputs := sortUtxos sel } ctx⟩])).qty p n
    rw [outputsValue_qty_append]
    dsimp only
    rw [changeAmount_qty, rawChange_qty]
    dsimp only
    omega

/-- C1 witness: the amended balance law evaluated at the asset-free scenario:
100 = (30 + 50) + 20, and asset (P, A) balances at 0 = 0. -/
theorem build_balance_witness :
    (providedValue c1wPair.1.inputs).coin
        = (outputsValue c1wPair.2.outputs).coin + c1wPair.2.fee ∧
    (providedValue c1wPair.1.inputs).qty "P" "A"
        = (outputsValue c1wPair.2.outputs).qty "P" "A" := by
  have hb := build_balance c1wB c1Addr c1Ctx c1wPair.1 c1wPair.2 (by rfl)
  exact ⟨hb.1, hb.2 (fun p n => le_refl 0) "P" "A"⟩

/-- C2 counterexample: at the concrete state c2B the build succeeds, but the
fee of the emitted body (max_tx_fee(context) = 5) is not the Fee Estimator's
fee of the fully-assembled placeholder transaction over the draft built from
the selected inputs and current outputs (7): build() never consults the
placeholder transaction. -/
theorem build_fee_not_from_estimator :
    (build c2B (some c2Addr) c2Ctx).isOk = true ∧
    c2Pair.2.fee ≠ estimateFee c2Draft c2Ctx := by
  constructor
  · decide
  · decide

/-- C2 (amended): in every successful build() the fee of the emitted body and
of the post-build state is max_tx_fee(context), derived from the chain
context's protocol parameters alone; the placeholder-witness transaction
(_build_full_fake_tx) is never consulted. -/
theorem build_fee_is_max_tx_fee (b : TransactionBuilder) (ca : Option Address)
    (ctx : ChainContext) (bq : TransactionBuilder) (body : TransactionBody)
    (h : build b ca ctx = .ok (bq, body)) :
    body.fee = maxTxFee ctx ∧ bq.fee = maxTxFee ctx := by
  obtain ⟨sel, h1, h2⟩ := build_ok h
  subst h1
  subst h2
  exact ⟨rfl, rfl⟩

/-- C2 witness: the amended fee law evaluated at the c2 scenario. -/
theorem build_fee_is_max_tx_fee_witness : c2Pair.2.fee = maxTxFee c2Ctx :=
  (build_fee_is_max_tx_fee c2B (some c2Addr) c2Ctx c2Pair.1 c2Pair.2 (by rfl)).1

/-- C3 (code-bug evaluation): build with the change address omitted at the
concrete state c3B still appends a change output - with address None and
amount 10000000 - 5000000 - 200000 = 4800000 - so the body has two outputs
and is balance-accounted, contrary to build's own docstring ("the transaction
body will likely be unbalanced") and to the spec, which say that with no
change address no change output is appended. -/
theorem build_without_change_address_appends :
    (build c3B none c3Ctx).toOption.map
        (fun r => (r.2.outputs.length, r.2.outputs.getLast?,
          decide ((providedValue r.1.inputs).coin
            = (outputsValue r.2.outputs).coin + r.2.fee)))
      = some (2, some ⟨none, .coin 4800000⟩, true) := by
  decide

/-- C4: the selector fallback loop: (1) the first succeeding selector wins;
(2) a failure before the last selector advances to the next and does not
abort; (3) when every selector fails the loop yields the combined
SelectionFailed error; (4) in that case the whole build aborts with it; and
(5) a successful selection appends the selected entries, and the build
continues to a body whose inputs are the sorted union. -/
theorem selection_fallback (ctx : ChainContext) :
    (∀ (pool : List UTxO) (req : List TransactionOutput) (s : UTxOSelector)
        (rest : List UTxOSelector) (sel : List UTxO), s pool req ctx = .ok sel →
        trySelectors ctx pool req (s :: rest) = .ok sel) ∧
    (∀ (pool : List UTxO) (req : List TransactionOutput) (s : UTxOSelector)
        (rest : List UTxOSelector) (e : String), rest ≠ [] → s pool req ctx = .error e →
        trySelectors ctx pool req (s :: rest) = trySelectors ctx pool req rest) ∧
    (∀ (pool : List UTxO) (req : List TransactionOutput) (sels : List UTxOSelector),
        sels ≠ [] → (∀ s ∈ sels, ∃ e, s pool req ctx = .error e) →
        trySelectors ctx pool req sels = .error "All UTxO selectors failed.") ∧
    (∀ (b : TransactionBuilder) (ca : Option Address),
        zeroLtValueB (unfulfilledAmountOf b) = true → b.utxoSelectors ≠ [] →
        (∀ s ∈ b.utxoSelectors, ∃ e,
          s (poolOf b ctx) [⟨none, Amount.value (unfulfilledAmountOf b)⟩] ctx = .error e) →
        build b ca ctx = .error "All UTxO selectors failed.") ∧
    (∀ (b : TransactionBuilder) (ca : Option Address) (sel : List UTxO),
        zeroLtValueB (unfulfilledAmountOf b) = true →
        trySelectors ctx (poolOf b ctx)
          [⟨none, Amount.value (unfulfilledAmountOf b)⟩] b.utxoSelectors = .ok sel →
        ∃ bq body, build b ca ctx = .ok (bq, body) ∧
          bq.inputs = sortUtxos (b.inputs ++ sel)) :=
  ⟨fun pool req s rest sel h => trySelectors_ok_head ctx pool req s rest sel h,
   fun pool req s rest e hne h => trySelectors_error_head ctx pool req s rest e hne h,
   fun pool req sels hne hall => trySelectors_all_fail ctx pool req sels hne hall,
   fun b ca hz hne hall => build_all_fail ctx b ca hz hne hall,
   fun b ca sel hz htr => build_selection_ok ctx b ca sel hz htr⟩

/-- C4 witness: with a failing selector followed by a succeeding one, the
loop returns the second selector's selection and the first failure does not
abort. -/
theorem selection_fallback_witness :
    trySelectors c4Ctx [] [] [failSel, c4Ok] = .ok [c4U] := by
  have hstep := (selection_fallback c4Ctx).2.1 [] [] failSel [c4Ok] "no selection"
    (by simp) rfl
  have hhead := (selection_fallback c4Ctx).1 [] [] c4Ok [] [c4U] rfl
  exact hstep.trans hhead

/-- C5: for any builder state with N inputs, the fee estimator's placeholder
witness list has exactly K entries, where K is the number of distinct
verification-key payment-credential hashes among the inputs, and K is at most
N: an address reused across inputs contributes exactly one entry. -/
theorem fee_witness_dedup (b : TransactionBuilder) :
    (buildFakeVkeyWitnesses b).length = (b.inputs.filterMap vkeyHashOf).toFinset.card ∧
      (b.inputs.filterMap vkeyHashOf).toFinset.card ≤ b.inputs.length := by
  constructor
  · rw [List.card_toFinset]
    simp [buildFakeVkeyWitnesses, inputVkeyHashes]
  · rw [List.card_toFinset]
    exact le_trans (List.Sublist.length_le (List.dedup_sublist _))
      (List.length_filterMap_le _ _)

/-- C6: for every successful build, the inputs of the emitted body are sorted
ascending by (transaction id, index); and the result is a function of the
builder state and the chain-context responses: any second evaluation of the
same call returns the identical result. -/
theorem build_inputs_sorted (b : TransactionBuilder) (ca : Option Address)
    (ctx : ChainContext) (bq : TransactionBuilder) (body : TransactionBody)
    (h : build b ca ctx = .ok (bq, body)) :
    List.Pairwise txInLe body.inputs ∧
      ∀ r2 : Except String (TransactionBuilder × TransactionBody),
        build b ca ctx = r2 → r2 = .ok (bq, body) := by
  obtain ⟨sel, h1, h2⟩ := build_ok h
  constructor
  · subst h1
    subst h2
    exact List.Pairwise.map (fun i => i.input)
      (fun x y hxy => txInLe_of_utxoSortLe x y hxy) (pairwise_sortUtxos sel)
  · intro r2 hr2
    rw [← hr2, h]

/-- C6 witness: the c6 scenario lists its two inputs in descending key order;
the built body's inputs come out sorted. -/
theorem build_inputs_sorted_witness : List.Pairwise txInLe c6Pair.2.inputs :=
  (build_inputs_sorted c6B none c6Ctx c6Pair.1 c6Pair.2 (by rfl)).1

/-- C7: for every successful build with a change address, the appended change
output is asset-clean: if it carries an asset container, the container is
non-empty and every quantity in it is strictly positive; when the filtered
asset map is empty the amount is a plain base-unit integer with no asset
container. -/
theorem build_change_clean (b : TransactionBuilder) (a : Address) (ctx : ChainContext)
    (bq : TransactionBuilder) (body : TransactionBody)
    (h : build b (some a) ctx = .ok (bq, body)) :
    changeOutputClean body = true := by
  obtain ⟨sel, h1, h2⟩ := build_ok h
  subst h1
  subst h2
  unfold changeOutputClean
  rw [show (buildTxBody (addChangeAndFee { b with inputs := sortUtxos sel }
        (some a) ctx)).outputs
      = b.outputs ++
        [⟨some a, changeAmountOf { b with inputs := sortUtxos sel } ctx⟩] from rfl]
  rw [List.getLast?_concat]
  exact changeAmount_clean { b with inputs := sortUtxos sel } ctx

/-- C7 witness: the change of the c7 scenario keeps asset A at 2 and is
clean. -/
theorem build_change_clean_witness : changeOutputClean c7Pair.2 = true :=
  build_change_clean c7B c7Addr c7Ctx c7Pair.1 c7Pair.2 (by rfl)

/-- C8: when the explicit inputs already cover the requested outputs (the
deficit is not strictly positive), build's observable result does not depend
on the chain-context UTxO query nor on the configured selectors: replacing
both arbitrarily leaves the final inputs, outputs, fee and body unchanged -
no UTxO query is consulted and no selector is invoked. -/
theorem sufficiency_skip (b : TransactionBuilder) (ca : Option Address)
    (u1 u2 : String → List UTxO) (f : Int) (g1 g2 : Transaction → Int)
    (s1 s2 : List UTxOSelector)
    (h : zeroLtValueB (unfulfilledAmountOf b) = false) :
    (build { b with utxoSelectors := s1 } ca ⟨u1, f, g1⟩).map
        (fun r => (r.1.inputs, r.1.outputs, r.1.fee, r.2))
      = (build { b with utxoSelectors := s2 } ca ⟨u2, f, g2⟩).map
        (fun r => (r.1.inputs, r.1.outputs, r.1.fee, r.2)) := by
  have h1 : zeroLtValueB (unfulfilledAmountOf { b with utxoSelectors := s1 }) = false := h
  have h2 : zeroLtValueB (unfulfilledAmountOf { b with utxoSelectors := s2 }) = false := h
  unfold build
  rw [if_neg (by simp [h1]), if_neg (by simp [h2])]
  rfl

/-- C8 witness: at the covered scenario c8B, an empty-pool context with a
failing selector and a populated-pool context with a succeeding selector
produce the same result. -/
theorem sufficiency_skip_witness :
    (build { c8B with utxoSelectors := [failSel] } none ⟨fun _ => [], 4, fun _ => 0⟩).map
        (fun r => (r.1.inputs, r.1.outputs, r.1.fee, r.2))
      = (build { c8B with utxoSelectors := [fun _ _ _ => .ok [c8Extra]] } none
          ⟨fun _ => [c8Extra], 4, fun _ => 9⟩).map
        (fun r => (r.1.inputs, r.1.outputs, r.1.fee, r.2)) :=
  sufficiency_skip c8B none (fun _ => []) (fun _ => [c8Extra]) 4 (fun _ => 0) (fun _ => 9)
    [failSel] [fun _ _ _ => .ok [c8Extra]] (by decide)

/-- C9: every successful build overwrites the builder's fee with the
context-derived maximum transaction fee, whatever fee the caller had set,
while the ttl, validity-start and input-address fields are left unchanged. -/
theorem build_overwrites_fee_frame (b : TransactionBuilder) (ca : Option Address)
    (ctx : ChainContext) (bq : TransactionBuilder) (body : TransactionBody)
    (h : build b ca ctx = .ok (bq, body)) :
    bq.fee = maxTxFee ctx ∧ bq.ttl = b.ttl ∧ bq.validityStart = b.validityStart ∧
      bq.inputAddresses = b.inputAddresses := by
  obtain ⟨sel, h1, h2⟩ := build_ok h
  subst h1
  exact ⟨rfl, rfl, rfl, rfl⟩

/-- C9 witness: the c9 builder had fee 999, ttl 77, validity start 33; after
build the fee is the context maximum 4 and the rest is unchanged. -/
theorem build_overwrites_fee_frame_witness :
    c9Pair.1.fee = maxTxFee c9Ctx ∧ c9Pair.1.ttl = c9B.ttl ∧
      c9Pair.1.validityStart = c9B.validityStart ∧
      c9Pair.1.inputAddresses = c9B.inputAddresses :=
  build_overwrites_fee_frame c9B none c9Ctx c9Pair.1 c9Pair.2 (by rfl)

/-- C10: an input whose owning address's payment part is a script hash
contributes no placeholder witness: removing it from the input list leaves
the fee estimator's fake witness list unchanged, so only verification-key
credentials are counted. -/
theorem script_input_no_witness (b : TransactionBuilder) (l1 l2 : List UTxO)
    (u : UTxO) (a : Address) (s : Nat) (hb : b.inputs = l1 ++ u :: l2)
    (ha : u.output.address = some a) (hs : a.paymentPart = some (.scriptHash s)) :
    buildFakeVkeyWitnesses b = buildFakeVkeyWitnesses { b with inputs := l1 ++ l2 } := by
  have hu : vkeyHashOf u = none := by
    unfold vkeyHashOf
    rw [ha]
    simp [hs]
  unfold buildFakeVkeyWitnesses inputVkeyHashes
  rw [hb]
  simp [List.filterMap_append, List.filterMap_cons, hu]

/-- C10 witness: dropping the script-credential input of c10B leaves the
placeholder witness list unchanged. -/
theorem script_input_no_witness_witness :
    buildFakeVkeyWitnesses c10B
      = buildFakeVkeyWitnesses { c10B with inputs := [c10V] ++ [] } :=
  script_input_no_witness c10B [c10V] [] c10U c10Script 9 rfl rfl rfl

end PyCardano
